import Mathlib

/-!
Verification development for the qidata XMP core (src/qidata/xmp.py).

The development shallowly embeds the address algebra, the tree builder, the
node variants and the virtual-element materialization protocol of xmp.py.
Addresses are `List Char` (Python unicode strings); the libxmp property store
is modelled as an association list implementing the Property Store Adapter
interface of the specification (enumerate / exists / get / set).  Regexes of
the source are embedded as explicit character-list matchers:

  ARRAY_ELEMENT_REGEX  (.*)\[(\d+)\]$   -> arrayElemGroup1
  INDEX_REGEX          ^\[\d+\]$        -> isBareIndex
  STRUCT_CHILD_REGEX   ^/[^/]+$         -> isStructChildSuffix

`$` is modelled as end of string (addresses contain no newline).
-/

/-- Convert a string literal to the character-list representation used for
addresses throughout this development. -/
def addr (s : String) : List Char := s.toList

/-- Group 1 of Python's `ARRAY_ELEMENT_REGEX = (.*)\[(\d+)\]$` applied with
`re.match`: `some t` when the address is `t ++ "[" ++ digits ++ "]"` with a
nonempty digit run (the greedy `.*` makes the bracket the rightmost one
admitting an all-digit run before the final `]`), otherwise `none`. -/
def arrayElemGroup1 (s : List Char) : Option (List Char) :=
  match s.reverse with
  | ']' :: rest =>
    match rest.drop (rest.takeWhile Char.isDigit).length with
    | '[' :: t =>
      if (rest.takeWhile Char.isDigit).isEmpty then none else some t.reverse
    | _ => none
  | _ => none

/-- Python's `INDEX_REGEX = ^\[\d+\]$`: the whole address is a bare index. -/
def isBareIndex (s : List Char) : Bool :=
  match s with
  | c :: rest =>
    c == '[' && (!(rest.takeWhile Char.isDigit).isEmpty &&
      rest.drop (rest.takeWhile Char.isDigit).length == [']'])
  | [] => false

/-- Python's `STRUCT_CHILD_REGEX = ^/[^/]+$`: a single nonempty `/`-segment. -/
def isStructChildSuffix (s : List Char) : Bool :=
  match s with
  | c :: rest => c == '/' && (!rest.isEmpty && rest.all (fun c2 => c2 != '/'))
  | [] => false

/-- `address.split("/")` of Python: split on every `/`, keeping empty parts. -/
def splitSlash : List Char → List (List Char)
  | [] => [[]]
  | c :: rest =>
    match splitSlash rest with
    | [] => [[]]
    | p :: ps => if c = '/' then [] :: p :: ps else (c :: p) :: ps

/-- `"/".join(parts)` of Python. -/
def joinSlash : List (List Char) → List Char
  | [] => []
  | [x] => x
  | x :: y :: ys => x ++ '/' :: joinSlash (y :: ys)

/-- `TreePredicatesMixin.is_top_level`: no `/` and no trailing array index. -/
def isTopLevelA (s : List Char) : Bool :=
  !s.contains '/' && !(arrayElemGroup1 s).isSome

/-- `TreePredicatesMixin.parent_address`: `none` for a top-level address;
group 1 of the array-element regex for array elements; otherwise the address
with its last `/`-segment stripped. -/
def parentAddressA (s : List Char) : Option (List Char) :=
  if isTopLevelA s then none
  else
    match arrayElemGroup1 s with
    | some t => some t
    | none => some (joinSlash (splitSlash s).dropLast)

/-- `TreePredicatesMixin.name`: the last `/`-segment of the address. -/
def lastSegment (s : List Char) : List Char :=
  (splitSlash s).getLastD []

/-- An addressable entity of a namespace: the pair (namespace uid, address)
that `TreePredicatesMixin` predicates operate on (both `LibXMPElement` and
`XMPElement` expose exactly these two fields to the mixin). -/
structure Elem where
  ns : String
  address : List Char
deriving DecidableEq, Repr

/-- `TreePredicatesMixin.isDescendantOf`: same namespace, the other address is
a prefix of ours, and the addresses differ. -/
def isDescendantOfB (a b : Elem) : Bool :=
  b.address.isPrefixOf a.address && a.ns == b.ns && !(a.address == b.address)

/-- `TreePredicatesMixin.isChildrenOf`, embedded branch for branch:
after the namespace and prefix guard, the address delta is classified as a
namespace-level child (zero `/`), an array element (must be a bare index) or
a struct child (a single `/`-segment). -/
def isChildrenOfB (a b : Elem) : Bool :=
  if !(a.ns == b.ns) || !(b.address.isPrefixOf a.address) then false
  else
    let delta := a.address.drop b.address.length
    let isArrElem := (arrayElemGroup1 delta).isSome
    let otherIsNs := b.address.isEmpty
    if otherIsNs && !isArrElem then delta.count '/' == 0
    else if isArrElem then isBareIndex delta
    else isStructChildSuffix delta

/-- Propositional form of `isChildrenOfB`, used to state closure claims. -/
def ChildOf (a b : Elem) : Prop := isChildrenOfB a b = true

instance (a b : Elem) : Decidable (ChildOf a b) := by
  unfold ChildOf; infer_instance

example : isChildrenOfB ⟨"n", addr "x/y"⟩ ⟨"n", addr "x"⟩ = true := by decide
example : isChildrenOfB ⟨"n", addr "arr[0]"⟩ ⟨"n", addr "arr"⟩ = true := by decide
example : isChildrenOfB ⟨"n", addr "[0]"⟩ ⟨"n", addr ""⟩ = true := by decide
example : isChildrenOfB ⟨"n", addr "arr[0]"⟩ ⟨"n", addr ""⟩ = false := by decide
example : isChildrenOfB ⟨"n", addr ""⟩ ⟨"n", addr ""⟩ = true := by decide
example : isDescendantOfB ⟨"n", addr "ab"⟩ ⟨"n", addr "a"⟩ = true := by decide
example : parentAddressA (addr "a/b[3]") = some (addr "a/b") := by decide
example : parentAddressA (addr "/x") = some (addr "") := by decide
example : isChildrenOfB ⟨"n", addr "/x"⟩ ⟨"n", addr ""⟩ = false := by decide

/-! ### Property store model

The Property Store Adapter of specification section 6 (the libxmp packet as
consumed by xmp.py: `does_property_exist`, `get_property`, `set_property`).
Modelled from the spec: the adapter is an external collaborator; `get`
returns the stored text. -/

structure StoreEntry where
  ns : String
  address : List Char
  value : List Char
deriving DecidableEq, Repr

abbrev Store := List StoreEntry

/-- `libxmp_metadata.get_property`: the stored text, `none` when absent. -/
def storeGet (st : Store) (ns : String) (a : List Char) : Option (List Char) :=
  (st.find? (fun e => e.ns == ns && e.address == a)).map (fun e => e.value)

/-- `libxmp_metadata.does_property_exist`. -/
def storeExists (st : Store) (ns : String) (a : List Char) : Bool :=
  (storeGet st ns a).isSome

/-- `libxmp_metadata.set_property`: overwrite in place or append. -/
def storeSet (st : Store) (ns : String) (a : List Char) (v : List Char) : Store :=
  if (List.find? (fun e => e.ns == ns && e.address == a) st).isSome then
    st.map (fun e => if e.ns == ns && e.address == a then ⟨ns, a, v⟩ else e)
  else st ++ [⟨ns, a, v⟩]

/-! ### LibXMP elements and the tree builder -/

/-- The descriptor flags of a libxmp enumeration tuple that xmp.py reads
(`IS_SCHEMA`, `VALUE_IS_STRUCT`, `VALUE_IS_ARRAY`, `ARRAY_IS_ORDERED`). -/
structure Descriptor where
  isSchema : Bool
  valueIsStruct : Bool
  valueIsArray : Bool
  arrayIsOrdered : Bool
deriving DecidableEq, Repr

/-- `LibXMPElement`: wrapper around one libxmp enumeration tuple. -/
structure LibXMPElement where
  ns : String
  address : List Char
  value : List Char
  descriptor : Descriptor
deriving DecidableEq, Repr

def LibXMPElement.is_container (e : LibXMPElement) : Bool :=
  e.descriptor.valueIsStruct || e.descriptor.valueIsArray

def LibXMPElement.is_value (e : LibXMPElement) : Bool :=
  !e.is_container

def LibXMPElement.is_struct (e : LibXMPElement) : Bool :=
  e.descriptor.valueIsStruct

def LibXMPElement.is_array (e : LibXMPElement) : Bool :=
  e.descriptor.valueIsArray && e.descriptor.arrayIsOrdered

def LibXMPElement.is_set (e : LibXMPElement) : Bool :=
  e.descriptor.valueIsArray && !e.descriptor.arrayIsOrdered

def LibXMPElement.toElem (e : LibXMPElement) : Elem := ⟨e.ns, e.address⟩

/-- The in-memory node tree (`XMPValue` / `XMPStructure` / `XMPArray` /
`XMPSet`); a namespace root is a structure with the empty address.
Children are kept in construction order; `XMPStructure` views them through
an ordered name-keyed dictionary (`odPairs` below). -/
inductive XMPNode where
  | value (ns : String) (address : List Char)
  | struct (ns : String) (address : List Char) (children : List XMPNode)
  | arr (ns : String) (address : List Char) (children : List XMPNode)
  | setN (ns : String) (address : List Char) (children : List XMPNode)

def XMPNode.address : XMPNode → List Char
  | .value _ a | .struct _ a _ | .arr _ a _ | .setN _ a _ => a

def XMPNode.nodeName (n : XMPNode) : List Char := lastSegment n.address

/-- `map` with a membership proof available to the function body; used to
justify termination of the tree builder. -/
def mapMem : (l : List α) → ((a : α) → a ∈ l → β) → List β
  | [], _ => []
  | x :: xs, f => f x (List.mem_cons_self x xs) :: mapMem xs (fun a h => f a (List.mem_cons_of_mem x h))

theorem length_filter_lt_of_mem_not {p : α → Bool} {l : List α} {a : α}
    (ha : a ∈ l) (hpa : p a = false) : (l.filter p).length < l.length := by
  induction l with
  | nil => cases ha
  | cons x xs ih =>
    by_cases hx : p x = true
    · rcases List.mem_cons.mp ha with rfl | hmem
      · rw [hpa] at hx; cases hx
      · simpa [List.filter_cons, hx] using Nat.succ_lt_succ (ih hmem)
    · simp only [List.filter_cons, if_neg hx, List.length_cons]
      rcases List.mem_cons.mp ha with rfl | hmem
      · exact Nat.lt_succ_of_le (List.length_filter_le p xs)
      · exact Nat.lt_succ_of_lt (ih hmem)

theorem isDescendantOfB_self_false (a : Elem) : isDescendantOfB a a = false := by
  simp [isDescendantOfB]

/-- `XMPElement.fromLibXMP`: values become leaves; for a container the
candidate set is filtered to the element's descendants, the direct children
are selected by `isChildrenOf`, and each child is built recursively against
the descendant set.  The source dispatches the container variant by
`is_struct` / `is_array` / `is_set`; since a non-value is a struct or an
array, once `is_struct` fails `VALUE_IS_ARRAY` holds, so `is_array` reduces
to `ARRAY_IS_ORDERED` and `is_set` to its negation. -/
def fromLibXMP (e : LibXMPElement) (potential : List LibXMPElement) : XMPNode :=
  if e.is_value then XMPNode.value e.ns e.address
  else
    let descendants := potential.filter (fun d => isDescendantOfB d.toElem e.toElem)
    let childElems := descendants.filter (fun d => isChildrenOfB d.toElem e.toElem)
    let kids := mapMem childElems (fun c _ => fromLibXMP c descendants)
    if e.is_struct then XMPNode.struct e.ns e.address kids
    else if e.descriptor.arrayIsOrdered then XMPNode.arr e.ns e.address kids
    else XMPNode.setN e.ns e.address kids
termination_by (potential.filter (fun d => isDescendantOfB d.toElem e.toElem)).length
decreasing_by
  rename_i hmem
  have hc : c ∈ descendants := List.mem_of_mem_filter hmem
  exact length_filter_lt_of_mem_not hc (isDescendantOfB_self_false c.toElem)

/-- A namespace and its node tree (`XMPNamespace`): uid, the qualification
prefix (`get_prefix_for_namespace(uid)[:-1]`, supplied by the store adapter),
and the root's children. -/
structure XMPNamespaceT where
  uid : String
  prefixStr : List Char
  children : List XMPNode

/-- The namespace seen as its root structure node (address is empty). -/
def nsRootNode (n : XMPNamespaceT) : XMPNode := .struct n.uid [] n.children

/-- One namespace of `XMPMetadata.__init__`: the members are the elements
that are direct children of the namespace root, each built by `fromLibXMP`
against the namespace's full element list. -/
def buildNamespace (uid : String) (pfx : List Char) (elems : List LibXMPElement) :
    XMPNamespaceT :=
  let members := elems.filter (fun m => isChildrenOfB m.toElem ⟨uid, []⟩)
  ⟨uid, pfx, members.map (fun m => fromLibXMP m elems)⟩

/-- The store contents corresponding to an enumeration. -/
def storeOfElems (elems : List LibXMPElement) : Store :=
  elems.map (fun e => ⟨e.ns, e.address, e.value⟩)

/-! ### Python values and errors -/

/-- The Python values handled by the mutation protocol.  The `isinstance`
dispatch of Python 2 is reproduced below; note that `basestring` is
registered with `collections.Sequence`, so a string satisfies the
Sequence check. -/
inductive PyValue where
  | str (s : List Char)
  | intV (n : Int)
  | boolV (b : Bool)
  | mapV (pairs : List (List Char × PyValue))
  | list (xs : List PyValue)
  | setV (xs : List PyValue)

/-- `isinstance(v, collections.Mapping)`. -/
def PyValue.isMapping : PyValue → Bool
  | .mapV _ => true
  | _ => false

/-- `isinstance(v, collections.Sequence)` in Python 2: lists, tuples and
`basestring` are registered with the `Sequence` ABC. -/
def PyValue.isSequence : PyValue → Bool
  | .list _ => true
  | .str _ => true
  | _ => false

/-- `isinstance(v, collections.Set)`. -/
def PyValue.isSetLike : PyValue → Bool
  | .setV _ => true
  | _ => false

/-- `isinstance(v, basestring)`. -/
def PyValue.isBasestring : PyValue → Bool
  | .str _ => true
  | _ => false

/-- `unicode(value)` as used by `XMPValue.__set__` for the scalars the
protocol can reach there (strings pass unchanged, numbers and booleans
textualize); container reprs are not modelled since the dispatch in
`XMPVirtualElement.__set__` routes containers away from the text write. -/
def pyText : PyValue → List Char
  | .str s => s
  | .intV n => (toString n).toList
  | .boolV b => if b then ('T' :: addr "rue") else ('F' :: addr "alse")
  | _ => []

/-- The Python exceptions observable across the embedded operations. -/
inductive PyErr where
  | keyError (k : List Char)
  | typeError (msg : String)
  | attributeError (msg : String)
  | nameError (msg : String)
  | notImplementedError (msg : String)
  | xmpError
deriving DecidableEq, Repr

/-! ### XMPStructure's ordered dictionary view and value decoding -/

/-- `collections.OrderedDict((c.name, c) for c in children)`: first
occurrence fixes the position, a duplicate key overwrites the value. -/
def odInsert (m : List (List Char × XMPNode)) (k : List Char) (v : XMPNode) :
    List (List Char × XMPNode) :=
  if m.any (fun p => p.1 == k) then
    m.map (fun p => if p.1 == k then (k, v) else p)
  else m ++ [(k, v)]

/-- The `_children` ordered dictionary of an `XMPStructure`, keyed by each
child's `name`. -/
def odPairs (cs : List XMPNode) : List (List Char × XMPNode) :=
  cs.foldl (fun m c => odInsert m c.nodeName c) []

/-- Dictionary lookup in `_children`. -/
def odLookup (cs : List XMPNode) (k : List Char) : Option XMPNode :=
  (List.find? (fun p => p.1 == k) (odPairs cs)).map (fun p => p.2)

/-- `children` iteration of an `XMPStructure` (`itervalues` of the dict). -/
def odValues (cs : List XMPNode) : List XMPNode :=
  (odPairs cs).map (fun p => p.2)

mutual
/-- `value` of the node variants:
  * `XMPValue.value` returns `get_property` (the stored text; libxmp raises
    when the property is absent);
  * `XMPStructure.value` is `OrderedDict((c.name, c.value) for c in children)`
    where the bare name `children` is undefined in that scope, so the
    property raises `NameError` unconditionally;
  * `XMPArray.value` is the list of the children's values;
  * `XMPSet.value` is `set(c.value for c in self.children)`, modelled as the
    decoded list (set construction aside, which no claim exercises). -/
def nodeValue (store : Store) : XMPNode → Except PyErr PyValue
  | .value ns a =>
    match storeGet store ns a with
    | some t => .ok (.str t)
    | none => .error .xmpError
  | .struct _ _ _ => .error (.nameError "children")
  | .arr _ _ cs => (nodeValueList store cs).map PyValue.list
  | .setN _ _ cs => (nodeValueList store cs).map PyValue.setV
/-- Decode a list of children left to right, propagating the first error. -/
def nodeValueList (store : Store) : List XMPNode → Except PyErr (List PyValue)
  | [] => .ok []
  | c :: cs => do
    let v ← nodeValue store c
    let vs ← nodeValueList store cs
    pure (v :: vs)
end

/-! ### Characterization lemmas for the embedded regexes and split/join -/

theorem takeWhile_append_of_all {p : α → Bool} {l : List α} (r : List α)
    (h : ∀ a ∈ l, p a = true) : (l ++ r).takeWhile p = l ++ r.takeWhile p := by
  induction l with
  | nil => simp
  | cons x xs ih =>
    have hx : p x = true := h x (List.mem_cons_self x xs)
    simp only [List.cons_append, List.takeWhile_cons, hx, if_true]
    rw [ih (fun a ha => h a (List.mem_cons_of_mem x ha))]

theorem takeWhile_cons_of_neg {p : α → Bool} {c : α} (r : List α) (h : p c = false) :
    (c :: r).takeWhile p = [] := by
  simp [List.takeWhile_cons, h]

/-- Building direction of the `ARRAY_ELEMENT_REGEX` matcher: an address of
the shape `t[ds]` with a nonempty digit run matches with group 1 equal
to `t`. -/
theorem arrayElemGroup1_eq_some_of_shape {t ds : List Char} (hne : ds ≠ [])
    (hdig : ∀ c ∈ ds, c.isDigit = true) :
    arrayElemGroup1 (t ++ '[' :: (ds ++ [']'])) = some t := by
  have hrev : (t ++ '[' :: (ds ++ [']'])).reverse
      = ']' :: (ds.reverse ++ '[' :: t.reverse) := by
    simp [List.reverse_append]
  have hdig' : ∀ c ∈ ds.reverse, Char.isDigit c = true := by
    intro c hc; exact hdig c (List.mem_reverse.mp hc)
  have htake : (ds.reverse ++ '[' :: t.reverse).takeWhile Char.isDigit = ds.reverse := by
    rw [takeWhile_append_of_all _ hdig', takeWhile_cons_of_neg _ (by decide), List.append_nil]
  have hdrop : (ds.reverse ++ '[' :: t.reverse).drop ds.reverse.length = '[' :: t.reverse :=
    List.drop_left _ _
  have hempty : ds.reverse.isEmpty = false := by
    cases h : ds.reverse.isEmpty
    · rfl
    · exact absurd (List.reverse_eq_nil_iff.mp (List.isEmpty_iff.mp h)) hne
  rw [arrayElemGroup1, hrev]
  simp only [htake, hdrop, hempty, Bool.false_eq_true, if_false, List.reverse_reverse]

/-- Destructing direction of the `ARRAY_ELEMENT_REGEX` matcher: a successful
match decomposes the address as `t[ds]` with a nonempty digit run. -/
theorem arrayElemGroup1_shape {s t : List Char}
    (h : arrayElemGroup1 s = some t) :
    ∃ ds : List Char, s = t ++ '[' :: (ds ++ [']']) ∧ ds ≠ [] ∧
      ∀ c ∈ ds, c.isDigit = true := by
  rw [arrayElemGroup1] at h
  split at h
  case h_2 => cases h
  case h_1 rest heq =>
    split at h
    case h_2 => cases h
    case h_1 c2 t0 heq2 =>
      split at h
      case isTrue => cases h
      case isFalse hemp =>
        have ht : t = t0.reverse := (Option.some.inj h).symm
        obtain ⟨u, hu⟩ := List.takeWhile_prefix (l := rest) (p := Char.isDigit)
        have hu2 : rest.drop (rest.takeWhile Char.isDigit).length = u := by
          have hdl := List.drop_left (rest.takeWhile Char.isDigit) u
          rw [hu] at hdl
          exact hdl
        have hu3 : u = '[' :: t0 := hu2.symm.trans heq2
        have hrest : rest = rest.takeWhile Char.isDigit ++ '[' :: t0 := by
          conv_lhs => rw [← hu]
          rw [hu3]
        refine ⟨(rest.takeWhile Char.isDigit).reverse, ?_, ?_, ?_⟩
        · have hs : s = (']' :: rest).reverse := by rw [← heq, List.reverse_reverse]
          rw [hs, ht]
          conv_lhs => rw [hrest]
          simp [List.reverse_append]
        · intro hnil
          rw [List.reverse_eq_nil_iff.mp hnil] at hemp
          simp at hemp
        · intro c hcmem
          exact List.mem_takeWhile_imp (List.mem_reverse.mp hcmem)

theorem splitSlash_ne_nil (s : List Char) : splitSlash s ≠ [] := by
  cases s with
  | nil => simp [splitSlash]
  | cons c rest =>
    rw [splitSlash]
    match h : splitSlash rest with
    | [] => simp
    | p :: ps => by_cases hc : c = '/' <;> simp [hc]

theorem joinSlash_splitSlash (s : List Char) : joinSlash (splitSlash s) = s := by
  induction s with
  | nil => rfl
  | cons c rest ih =>
    rw [splitSlash]
    split
    case h_1 heq => exact absurd heq (splitSlash_ne_nil rest)
    case h_2 p ps heq =>
      rw [heq] at ih
      by_cases hc : c = '/'
      · subst hc
        simp only [if_pos rfl, joinSlash, ih, List.nil_append]
      · rw [if_neg hc]
        cases ps with
        | nil => simp only [joinSlash] at ih ⊢; rw [ih]
        | cons q qs => simp only [joinSlash] at ih ⊢; rw [List.cons_append, ih]

theorem mem_splitSlash_no_slash {s x : List Char} (hx : x ∈ splitSlash s) :
    ∀ c ∈ x, c ≠ '/' := by
  induction s generalizing x with
  | nil =>
    simp only [splitSlash, List.mem_singleton] at hx
    subst hx; simp
  | cons c rest ih =>
    rw [splitSlash] at hx
    split at hx
    case h_1 heq => exact absurd heq (splitSlash_ne_nil rest)
    case h_2 p ps heq =>
      by_cases hc : c = '/'
      · rw [if_pos hc] at hx
        rcases List.mem_cons.mp hx with rfl | hmem
        · simp
        · exact ih (by rw [heq]; exact hmem)
      · rw [if_neg hc] at hx
        rcases List.mem_cons.mp hx with rfl | hmem
        · intro d hd
          rcases List.mem_cons.mp hd with rfl | hd2
          · exact hc
          · exact ih (by rw [heq]; exact List.mem_cons_self p ps) d hd2
        · exact ih (by rw [heq]; exact List.mem_cons_of_mem p hmem)

theorem two_le_length_splitSlash {s : List Char} (h : '/' ∈ s) :
    2 ≤ (splitSlash s).length := by
  induction s with
  | nil => cases h
  | cons c rest ih =>
    rw [splitSlash]
    split
    case h_1 heq => exact absurd heq (splitSlash_ne_nil rest)
    case h_2 p ps heq =>
      by_cases hc : c = '/'
      · rw [if_pos hc]
        simp only [List.length_cons]
        omega
      · rw [if_neg hc]
        rcases List.mem_cons.mp h with heq2 | hmem
        · exact absurd heq2.symm hc
        · have h2 := ih hmem
          rw [heq] at h2
          simp only [List.length_cons] at h2 ⊢
          omega

theorem joinSlash_cons {ys : List (List Char)} (h : ys ≠ []) (x : List Char) :
    joinSlash (x :: ys) = x ++ '/' :: joinSlash ys := by
  cases ys with
  | nil => cases h rfl
  | cons z zs => rfl

theorem joinSlash_append_single {l : List (List Char)} {x : List Char} (h : l ≠ []) :
    joinSlash (l ++ [x]) = joinSlash l ++ '/' :: x := by
  induction l with
  | nil => cases h rfl
  | cons y ys ih =>
    cases ys with
    | nil => simp [joinSlash]
    | cons z zs =>
      rw [List.cons_append, joinSlash_cons (by simp) y, ih (by simp),
        joinSlash_cons (by simp) y]
      simp

/-- Decomposition of a `/`-containing address into its parent part and its
final segment. -/
theorem splitSlash_decomp {s : List Char} (h : '/' ∈ s) :
    s = joinSlash (splitSlash s).dropLast ++ '/' :: lastSegment s ∧
      (splitSlash s).dropLast ≠ [] := by
  have h2 := two_le_length_splitSlash h
  have hne : splitSlash s ≠ [] := splitSlash_ne_nil s
  have hdecomp : (splitSlash s).dropLast ++ [(splitSlash s).getLast hne] = splitSlash s :=
    List.dropLast_append_getLast hne
  have hdl : (splitSlash s).dropLast ≠ [] := by
    have hlen : (splitSlash s).dropLast.length = (splitSlash s).length - 1 :=
      List.length_dropLast _
    intro hnil
    rw [hnil] at hlen
    simp only [List.length_nil] at hlen
    omega
  have hlast : lastSegment s = (splitSlash s).getLast hne := by
    rw [lastSegment]
    conv_lhs => rw [← hdecomp]
    exact List.getLastD_concat _ _ _
  refine ⟨?_, hdl⟩
  conv_lhs => rw [← joinSlash_splitSlash s]
  conv_lhs => rw [← hdecomp]
  rw [joinSlash_append_single hdl, hlast]

/-- The parent address of a non-top-level address is strictly shorter. -/
theorem parentAddressA_length_lt {s p : List Char} (h : parentAddressA s = some p) :
    p.length < s.length := by
  rw [parentAddressA] at h
  split at h
  case isTrue => cases h
  case isFalse htop =>
    split at h
    case h_1 t heq =>
      obtain ⟨ds, hs, hne, _⟩ := arrayElemGroup1_shape heq
      have hp : p = t := (Option.some.inj h).symm
      rw [hp, hs]
      simp only [List.length_append, List.length_cons]
      omega
    case h_2 heq =>
      have hslash : '/' ∈ s := by
        by_contra hns
        apply htop
        rw [isTopLevelA, heq]
        simp [hns]
      obtain ⟨hdecomp, _⟩ := splitSlash_decomp hslash
      have hp : p = joinSlash (splitSlash s).dropLast := (Option.some.inj h).symm
      rw [hp]
      conv_rhs => rw [hdecomp]
      simp only [List.length_append, List.length_cons]
      omega

/-! ### Qualification and structure lookup -/

/-- `isQualified(name)`: the name contains a colon. -/
def isQualifiedName (n : List Char) : Bool := n.contains ':'

/-- `XMPNamespace.qualify`: prepend `prefix:` unless already qualified. -/
def qualifyName (pfx n : List Char) : List Char :=
  if isQualifiedName n then n else pfx ++ ':' :: n

theorem joinSlash_tail_length_lt {key c0 : List Char} {rest : List (List Char)}
    (h : splitSlash key = c0 :: rest) (hne : rest ≠ []) :
    (joinSlash rest).length < key.length := by
  have hk : key = joinSlash (c0 :: rest) := by rw [← h, joinSlash_splitSlash]
  rw [hk, joinSlash_cons hne]
  simp only [List.length_append, List.length_cons]
  omega

/-- `XMPStructure.__getitem__` with a string key: split the key on `/`,
qualify the leading component, look it up in the `_children` dictionary
(`KeyError` on a miss), and recurse into the child with the re-joined rest;
indexing a non-structure child with a string is a `TypeError`.  The first
arm is unreachable (`splitSlash` never returns `[]`). -/
def getItemKey (pfx : List Char) (cs : List XMPNode) (key : List Char) :
    Except PyErr XMPNode :=
  match hsp : splitSlash key with
  | [] => .error (.keyError key)
  | c0 :: rest =>
    match odLookup cs (qualifyName pfx c0) with
    | none => .error (.keyError (qualifyName pfx c0))
    | some child =>
      if hr : rest = [] then .ok child
      else
        match child with
        | .struct _ _ ccs => getItemKey pfx ccs (joinSlash rest)
        | _ => .error (.typeError "unsubscriptable child")
termination_by key.length
decreasing_by exact joinSlash_tail_length_lt hsp hr

/-! ### The virtual element protocol -/

/-- Result of `XMPVirtualElement.parent`: the namespace root or a found
element (real), a virtual parent on a `KeyError` from the tree lookup, or a
propagated error. -/
inductive ParentRes where
  | virt (pa : List Char)
  | real (n : XMPNode)
  | err (e : PyErr)

/-- `XMPVirtualElement.parent`: `parent_address` of `None` resolves to the
namespace itself; otherwise `self.namespace[parent_address]` is looked up in
the in-memory tree, a `KeyError` producing a virtual element at the parent
address. -/
def resolveParent (nsT : XMPNamespaceT) (address : List Char) : ParentRes :=
  match parentAddressA address with
  | none => .real (nsRootNode nsT)
  | some pa =>
    match getItemKey nsT.prefixStr nsT.children pa with
    | .ok n => .real n
    | .error (.keyError _) => .virt pa
    | .error e => .err e

theorem resolveParent_virt {nsT : XMPNamespaceT} {a pa : List Char}
    (h : resolveParent nsT a = .virt pa) : parentAddressA a = some pa := by
  rw [resolveParent] at h
  split at h
  case h_1 => cases h
  case h_2 pa2 heq =>
    split at h
    case h_1 => cases h
    case h_2 => rw [heq]; cases h; rfl
    case h_3 => cases h

/-- `parent.append(new_element)`: on an `XMPStructure` (hence on a
namespace) the `MutableSequence` mixin `append` delegates to
`XMPStructure.insert`, which is `raise NotImplementedError  # TODO`
(xmp.py 899-900); the other variants define no `append`. -/
def appendTo (parent : XMPNode) (x : XMPNode) (st : Store) :
    Except PyErr Unit × Store :=
  match parent, x with
  | .struct _ _ _, _ => (.error (.notImplementedError ""), st)
  | .value _ _, _ => (.error (.attributeError "append"), st)
  | .arr _ _ _, _ => (.error (.attributeError "append"), st)
  | .setN _ _ _, _ => (.error (.attributeError "append"), st)

/-- `XMPVirtualElement.__set__` (xmp.py 647-698).  When the resolved parent
is itself virtual, the source recurses on the parent with the wrapped value
`{self.name: value}` (both the array-element and the struct sub-branches of
the source build this same dictionary) and then unconditionally raises
`NotImplementedError("Virtual element assignment [Not implemented YET]")`.
When the parent exists, the value's `isinstance` shape picks the new node
variant — a Mapping becomes an empty structure, a Sequence (which includes
strings in Python 2) an empty ordered array, a Set an empty set, and
anything else an `XMPValue` whose `__set__` writes the text through the
store — and the new node is appended to the parent.  Exceptions do not roll
back store writes, so the store is threaded through the error path. -/
def virtualSet (nsT : XMPNamespaceT) (store : Store) (address : List Char)
    (v : PyValue) : Except PyErr Unit × Store :=
  match hres : resolveParent nsT address with
  | .err e => (.error e, store)
  | .virt pa =>
    match virtualSet nsT store pa (.mapV [(lastSegment address, v)]) with
    | (.error e, st) => (.error e, st)
    | (.ok _, st) =>
      (.error (.notImplementedError "Virtual element assignment [Not implemented YET]"), st)
  | .real p =>
    if v.isMapping then appendTo p (XMPNode.struct nsT.uid address []) store
    else if v.isSequence then appendTo p (XMPNode.arr nsT.uid address []) store
    else if v.isSetLike then appendTo p (XMPNode.setN nsT.uid address []) store
    else
      appendTo p (XMPNode.value nsT.uid address)
        (storeSet store nsT.uid address (pyText v))
termination_by address.length
decreasing_by exact parentAddressA_length_lt (resolveParent_virt hres)

/-- `XMPStructure.__setattr__` on a frozen namespace for a name that is not
a raw attribute: `__getattr__` performs `self.get(name, default=None)`
(the children lookup with qualification, `KeyError` meaning absent) and
falls back to a virtual element at the qualified address; the resulting
child receives `__set__` — a store write for an `XMPValue`, the
`NotImplementedError("Must be overriden")` of the `XMPElement` base for
container children, and materialization for a virtual element. -/
def nsAssignField (nsT : XMPNamespaceT) (store : Store) (name : List Char)
    (v : PyValue) : Except PyErr Unit × Store :=
  match getItemKey nsT.prefixStr nsT.children name with
  | .ok (XMPNode.value ns a) => (.ok (), storeSet store ns a (pyText v))
  | .ok _ => (.error (.notImplementedError "Must be overriden"), store)
  | .error (.keyError _) => virtualSet nsT store (qualifyName nsT.prefixStr name) v
  | .error e => (.error e, store)

/-! ### desynchronized and the metadata mapping -/

/-- `XMPValue.desynchronized` (xmp.py 1088-1092): the body is
`raise self.libxmp_metadata.does_property_exist(...)` followed by an
unreachable `raise NotImplementedError  # TODO`.  Raising a `bool` is a
`TypeError` in Python 2, so the property always raises and never returns. -/
def valueDesynchronized (store : Store) (ns : String) (a : List Char) :
    Except PyErr Bool :=
  let _ := storeExists store ns a
  .error (.typeError "exceptions must be old-style classes or instances, not bool")

/-- `XMPMetadata`: the namespace registry (a mapping keyed by namespace uid)
together with the adapter's prefix resolution (`get_prefix_for_namespace`
with the trailing colon stripped). -/
structure XMPMetadataT where
  nss : List (String × XMPNamespaceT)
  prefixFun : String → List Char

/-- `len(metadata)`. -/
def metaLen (m : XMPMetadataT) : Nat := m.nss.length

/-- `XMPMetadata.__getitem__`: a registered namespace is returned as is; an
unknown uri yields a fresh `XMPNamespace(self, key)` — an empty-children
namespace that is not recorded in `_namespaces`.  The registry is returned
unchanged alongside to state frame effects. -/
def metaGetItem (m : XMPMetadataT) (key : String) :
    XMPNamespaceT × XMPMetadataT :=
  match (m.nss.find? (fun p => p.1 == key)) with
  | some p => (p.2, m)
  | none => (⟨key, m.prefixFun key, []⟩, m)

/-! ### Bare-index and struct-suffix characterizations -/

theorem isBareIndex_of_shape {ds : List Char} (hne : ds ≠ [])
    (hdig : ∀ c ∈ ds, c.isDigit = true) :
    isBareIndex ('[' :: (ds ++ [']'])) = true := by
  rw [isBareIndex]
  have htake : (ds ++ [']']).takeWhile Char.isDigit = ds := by
    rw [takeWhile_append_of_all _ hdig, takeWhile_cons_of_neg _ (by decide), List.append_nil]
  have hdrop : (ds ++ [']']).drop ds.length = [']'] := List.drop_left _ _
  rw [htake, hdrop]
  simp [hne]

theorem isBareIndex_isSome {s : List Char} (h : isBareIndex s = true) :
    (arrayElemGroup1 s).isSome = true := by
  cases s with
  | nil => rw [isBareIndex] at h; cases h
  | cons c rest =>
    rw [isBareIndex] at h
    simp only [Bool.and_eq_true, beq_iff_eq, Bool.not_eq_true'] at h
    obtain ⟨hc, hne, hdrop⟩ := h
    subst hc
    have hds : rest.takeWhile Char.isDigit ≠ [] := by
      intro hnil; rw [hnil] at hne; cases hne
    have hrest : rest = rest.takeWhile Char.isDigit ++ [']'] := by
      obtain ⟨u, hu⟩ := List.takeWhile_prefix (l := rest) (p := Char.isDigit)
      have hu2 : rest.drop (rest.takeWhile Char.isDigit).length = u := by
        have hdl := List.drop_left (rest.takeWhile Char.isDigit) u
        rw [hu] at hdl
        exact hdl
      have hu3 : u = [']'] := by
        rw [← hu2]
        exact hdrop
      conv_lhs => rw [← hu]
      rw [hu3]
    have hshape : ('[' :: rest) = [] ++ '[' :: (rest.takeWhile Char.isDigit ++ [']']) := by
      rw [List.nil_append, ← hrest]
    rw [hshape, arrayElemGroup1_eq_some_of_shape hds
      (fun c hc => List.mem_takeWhile_imp hc)]
    rfl

theorem isStructChildSuffix_of_segment {L : List Char} (hne : L ≠ [])
    (hns : ∀ c ∈ L, c ≠ '/') : isStructChildSuffix ('/' :: L) = true := by
  rw [isStructChildSuffix]
  have h1 : L.isEmpty = false := by
    cases hL : L.isEmpty
    · rfl
    · exact absurd (List.isEmpty_iff.mp hL) hne
  have h2 : L.all (fun c2 => c2 != '/') = true := by
    rw [List.all_eq_true]
    intro c hc
    simpa using hns c hc
  rw [h1, h2]
  rfl

theorem count_slash_beq_zero (s : List Char) :
    (s.count '/' == 0) = !s.contains '/' := by
  by_cases hm : '/' ∈ s
  · have h1 : s.count '/' ≠ 0 := by
      simp only [ne_eq, List.count_eq_zero]
      simpa using hm
    have h2 : (s.count '/' == 0) = false := by
      simpa using h1
    simp [h2, hm]
  · have h1 : s.count '/' = 0 := List.count_eq_zero.mpr (by simpa using hm)
    simp [h1, hm]

/-! ### Claim C6: isDescendantOf versus the transitive closure of isChildrenOf -/

theorem childOf_ns_prefix {a b : Elem} (h : ChildOf a b) :
    a.ns = b.ns ∧ b.address <+: a.address := by
  rw [ChildOf, isChildrenOfB] at h
  split at h
  case isTrue => cases h
  case isFalse hg =>
    have hx : (a.ns == b.ns) = true := by
      cases hns : (a.ns == b.ns)
      · exfalso; apply hg; rw [hns]; simp
      · rfl
    have hy : List.isPrefixOf b.address a.address = true := by
      cases hpre : List.isPrefixOf b.address a.address
      · exfalso; apply hg; rw [hpre]; simp
      · rfl
    exact ⟨by simpa using hx, List.isPrefixOf_iff_prefix.mp hy⟩

def rootElem : Elem := ⟨"ns1", []⟩

/-- Claim C6: the claim as stated is false at the concrete pair
a = b = namespace root: the code makes the root an `isChildrenOf`-child of
itself (empty delta, zero `/`), so a chain of length one exists, while
`isDescendantOf` requires distinct addresses and is false there. -/
theorem claim_C6_counterexample :
    ¬ (isDescendantOfB rootElem rootElem = true ↔
        Relation.TransGen ChildOf rootElem rootElem) := by
  intro hiff
  have hchain : Relation.TransGen ChildOf rootElem rootElem :=
    Relation.TransGen.single (by decide)
  exact absurd (hiff.mpr hchain) (by decide)

/-- Every isChildrenOf chain preserves the namespace and accumulates the
address-prefix relation. -/
theorem transGen_childOf_ns_prefix {a b : Elem}
    (h : Relation.TransGen ChildOf a b) :
    a.ns = b.ns ∧ b.address <+: a.address := by
  induction h with
  | single h1 => exact childOf_ns_prefix h1
  | tail hab hbc ih =>
    obtain ⟨h1, h2⟩ := ih
    obtain ⟨h3, h4⟩ := childOf_ns_prefix hbc
    exact ⟨h1.trans h3, h4.trans h2⟩

/-- Claim C6 (amended): between two distinct elements, an isChildrenOf chain
does imply isDescendantOf; the stated equivalence fails in the converse
direction, since isDescendantOf is plain string-prefix comparison, which
also relates pairs such as "ab" over "a" that admit no chain, and the root
is an isChildrenOf-child of itself although isDescendantOf never holds
reflexively. -/
theorem claim_C6_amended (a b : Elem) (hchain : Relation.TransGen ChildOf a b)
    (hne : a ≠ b) : isDescendantOfB a b = true := by
  obtain ⟨hns, hpre⟩ := transGen_childOf_ns_prefix hchain
  have haddr : a.address ≠ b.address := by
    intro he
    apply hne
    cases a; cases b
    simp_all
  simp [isDescendantOfB, List.isPrefixOf_iff_prefix, hpre, hns, haddr]

/-- Claim C6 (witness for the amended theorem): the chain
x/y -> x -> root inside one namespace yields `isDescendantOf`. -/
theorem claim_C6_witness :
    isDescendantOfB ⟨"ns1", addr "x/y"⟩ rootElem = true :=
  claim_C6_amended ⟨"ns1", addr "x/y"⟩ rootElem
    (Relation.TransGen.tail
      (Relation.TransGen.single
        (show ChildOf ⟨"ns1", addr "x/y"⟩ ⟨"ns1", addr "x"⟩ by decide))
      (show ChildOf ⟨"ns1", addr "x"⟩ rootElem by decide))
    (by decide)

/-! ### Claim C8: direct children of the namespace root -/

/-- Claim C8: the claim as stated is false at the concrete bare-index
address "[0]": the code classifies it as a direct child of the namespace
root (the array-element branch accepts a pure index delta even when the
other element is the namespace), while the claim says namespace-level
children are never bare indices. -/
theorem claim_C8_counterexample :
    ¬ (isChildrenOfB ⟨"ns1", addr "[0]"⟩ ⟨"ns1", []⟩ = true ↔
        ((addr "[0]").contains '/' = false ∧ isBareIndex (addr "[0]") = false)) := by
  decide

/-- Claim C8 (amended): an element is a direct `isChildrenOf`-child of its
namespace root exactly when its address either contains no `/` and does not
end in an array-index suffix, or is itself a bare index `[n]` — contrary to
the claim, bare indices do qualify. -/
theorem claim_C8_amended (ns : String) (s : List Char) :
    isChildrenOfB ⟨ns, s⟩ ⟨ns, []⟩ =
      ((!s.contains '/' && !(arrayElemGroup1 s).isSome) || isBareIndex s) := by
  rw [isChildrenOfB]
  rw [if_neg (by simp [List.isPrefixOf])]
  simp only [List.length_nil, List.drop_zero, List.isEmpty_nil, Bool.true_and]
  by_cases hiA : (arrayElemGroup1 s).isSome = true
  · simp [hiA]
  · have hiA2 : (arrayElemGroup1 s).isSome = false := by
      cases h2 : (arrayElemGroup1 s).isSome
      · rfl
      · exact absurd h2 hiA
    have hbare : isBareIndex s = false := by
      cases h2 : isBareIndex s
      · rfl
      · exact absurd (isBareIndex_isSome h2) (by simp [hiA2])
    simp [hiA2, hbare, count_slash_beq_zero]

/-! ### Claim C7: parentAddress produces a direct parent -/

theorem getLastD_mem {α : Type} {l : List α} (h : l ≠ []) (d : α) :
    l.getLastD d ∈ l := by
  rw [List.getLastD_eq_getLast?, List.getLast?_eq_getLast l h]
  simp only [Option.getD_some]
  exact List.getLast_mem h

/-- Claim C7: the claim as stated fails at the concrete address "/x": it is
not top-level (it contains a slash), its parent address is the empty
string, yet isChildrenOf rejects the pair because the namespace-root branch
requires a slash-free delta. -/
theorem claim_C7_counterexample :
    isTopLevelA (addr "/x") = false ∧
    parentAddressA (addr "/x") = some [] ∧
    isChildrenOfB ⟨"ns1", addr "/x"⟩ ⟨"ns1", []⟩ = false := by
  refine ⟨by decide, by decide, by decide⟩

/-- Claim C7 (amended): a non-top-level address is a direct isChildrenOf
child of its parentAddress, provided that, when the address is not an array
element, its final slash-segment is nonempty and the part before the final
slash is nonempty (degenerate addresses such as "/x" or "x/" falsify the
original unconditional claim). -/
theorem claim_C7_amended (ns : String) (s : List Char)
    (htop : isTopLevelA s = false)
    (hdeg : arrayElemGroup1 s = none →
      lastSegment s ≠ [] ∧ joinSlash (splitSlash s).dropLast ≠ []) :
    ∃ p, parentAddressA s = some p ∧
      isChildrenOfB ⟨ns, s⟩ ⟨ns, p⟩ = true := by
  cases harr : arrayElemGroup1 s with
  | some t =>
    refine ⟨t, ?_, ?_⟩
    · rw [parentAddressA, if_neg (by simp [htop]), harr]
    · obtain ⟨ds, hs, hne, hdig⟩ := arrayElemGroup1_shape harr
      have hpre : List.isPrefixOf t s = true :=
        List.isPrefixOf_iff_prefix.mpr ⟨'[' :: (ds ++ [']']), hs.symm⟩
      have hdelta : s.drop t.length = '[' :: (ds ++ [']']) := by
        rw [hs]; exact List.drop_left _ _
      have harrD : (arrayElemGroup1 ('[' :: (ds ++ [']']))).isSome = true := by
        have hb := arrayElemGroup1_eq_some_of_shape (t := []) hne hdig
        rw [List.nil_append] at hb
        rw [hb]; rfl
      have hbareD : isBareIndex ('[' :: (ds ++ [']'])) = true :=
        isBareIndex_of_shape hne hdig
      rw [isChildrenOfB]
      rw [if_neg (by simp [hpre])]
      simp only [hdelta, harrD, hbareD]
      simp
  | none =>
    have hslash : '/' ∈ s := by
      have htop2 := htop
      rw [isTopLevelA] at htop2
      simp [harr] at htop2
      exact htop2
    obtain ⟨hdecomp, hdl⟩ := splitSlash_decomp hslash
    obtain ⟨hLne, hPne⟩ := hdeg harr
    have hmem : lastSegment s ∈ splitSlash s := getLastD_mem (splitSlash_ne_nil s) []
    set P := joinSlash (splitSlash s).dropLast with hPdef
    set L := lastSegment s with hLdef
    refine ⟨P, ?_, ?_⟩
    · rw [parentAddressA, if_neg (by simp [htop]), harr, hPdef]
    · have hpre : List.isPrefixOf P s = true :=
        List.isPrefixOf_iff_prefix.mpr ⟨'/' :: L, hdecomp.symm⟩
      have hdelta : s.drop P.length = '/' :: L := by
        conv_lhs => rw [hdecomp]
        exact List.drop_left _ _
      have harrD : (arrayElemGroup1 ('/' :: L)).isSome = false := by
        cases harrD0 : arrayElemGroup1 ('/' :: L) with
        | none => rfl
        | some t2 =>
          exfalso
          obtain ⟨ds2, hs2, hne2, hdig2⟩ := arrayElemGroup1_shape harrD0
          have hs3 : s = (P ++ t2) ++ '[' :: (ds2 ++ [']']) := by
            rw [List.append_assoc, ← hs2, ← hdecomp]
          have h3 := arrayElemGroup1_eq_some_of_shape (t := P ++ t2) hne2 hdig2
          rw [← hs3, harr] at h3
          cases h3
      have hPemp : P.isEmpty = false := by
        cases hP : P.isEmpty
        · rfl
        · exact absurd (List.isEmpty_iff.mp hP) hPne
      have hnoslash : ∀ c ∈ L, c ≠ '/' := mem_splitSlash_no_slash hmem
      have hstruct : isStructChildSuffix ('/' :: L) = true :=
        isStructChildSuffix_of_segment hLne hnoslash
      rw [isChildrenOfB]
      rw [if_neg (by simp [hpre])]
      simp only [hdelta, harrD, hPemp, hstruct]
      simp

/-- Claim C7 (witness for the amended theorem): the address "x/y" is a
direct child of its parent address "x". -/
theorem claim_C7_witness :
    ∃ p, parentAddressA (addr "x/y") = some p ∧
      isChildrenOfB ⟨"ns1", addr "x/y"⟩ ⟨"ns1", p⟩ = true :=
  claim_C7_amended "ns1" (addr "x/y") (by decide) (by decide)

/-! ### Claim C3: desynchronized on a Value -/

def storeC3 : Store := [⟨"ns1", addr "a", addr "5"⟩]

/-- Claim C3: the claim is contradicted by `XMPValue.desynchronized` — the
property says `raise` where it means `return` (and lacks the negation), so
for a Value whose address exists in the store it raises a `TypeError`
instead of returning `false`.  The spec's reading (store lacks the address,
child desynchronization, count disagreement) is the evident intent of the
surrounding code and of `XMPElement`'s contract. -/
theorem claim_C3_value_desync_raises :
    storeExists storeC3 "ns1" (addr "a") = true ∧
    valueDesynchronized storeC3 "ns1" (addr "a") =
      .error (.typeError "exceptions must be old-style classes or instances, not bool") ∧
    valueDesynchronized storeC3 "ns1" (addr "a") ≠ .ok false := by
  refine ⟨by decide, rfl, by intro h; cases h⟩

/-! ### Claim C9: malformed descriptors in the tree builder -/

/-- The node-variant dispatch of `XMPElement.fromLibXMP` viewed as a
fallible step: the source has no error channel at all (no
`MalformedInputKind` exists anywhere in xmp.py), so the wrapper always
returns `Except.ok` of the constructed node; the `Except` type only serves
to state the claimed error signalling. -/
def fromLibXMPChecked (e : LibXMPElement) (potential : List LibXMPElement) :
    Except String XMPNode :=
  .ok (fromLibXMP e potential)

def bothFlagsElem : LibXMPElement := ⟨"ns1", addr "x", [], ⟨false, true, true, true⟩⟩

/-- Claim C9: the claim as stated is false at a concrete tuple flagged both
struct and array: building does not signal any error — the struct flag is
tested first and an `XMPStructure` is constructed. -/
theorem claim_C9_counterexample :
    fromLibXMPChecked bothFlagsElem [] = .ok (XMPNode.struct "ns1" (addr "x") []) := by
  rw [fromLibXMPChecked, fromLibXMP]
  have h1 : bothFlagsElem.is_value = false := by decide
  have h2 : bothFlagsElem.is_struct = true := by decide
  simp only [h1, Bool.false_eq_true, if_false, h2, if_true,
    List.filter_nil, mapMem]
  rfl

/-- Claim C9 (amended): a tuple whose descriptor carries the struct flag —
even together with the array flag — is always built as a Structure node;
no MalformedInputKind error is signalled (none exists in the code). -/
theorem claim_C9_amended (e : LibXMPElement) (p : List LibXMPElement)
    (h : e.descriptor.valueIsStruct = true) :
    ∃ kids, fromLibXMPChecked e p = .ok (XMPNode.struct e.ns e.address kids) := by
  have h1 : e.is_value = false := by
    simp [LibXMPElement.is_value, LibXMPElement.is_container, h]
  have h2 : e.is_struct = true := h
  refine ⟨mapMem (List.filter (fun d => isChildrenOfB d.toElem e.toElem)
      (List.filter (fun d => isDescendantOfB d.toElem e.toElem) p))
      (fun c _ => fromLibXMP c
        (List.filter (fun d => isDescendantOfB d.toElem e.toElem) p)), ?_⟩
  rw [fromLibXMPChecked, fromLibXMP]
  simp only [h1, Bool.false_eq_true, if_false, h2, if_true]

/-- Claim C9 (witness for the amended theorem). -/
theorem claim_C9_witness :
    ∃ kids, fromLibXMPChecked bothFlagsElem [] =
      .ok (XMPNode.struct "ns1" (addr "x") kids) :=
  claim_C9_amended bothFlagsElem [] rfl

/-! ### Claim C10: lookup of an unregistered namespace uri -/

/-- Claim C10: indexing the metadata with an unregistered uri returns a
fresh empty-namespace placeholder carrying that uri, raises nothing, leaves
the registry and its length unchanged, and a repeated lookup returns a
fresh (equal, empty) placeholder rather than a registered one. -/
theorem claim_C10_missing_uri_placeholder (m : XMPMetadataT) (key : String)
    (h : m.nss.find? (fun p => p.1 == key) = none) :
    metaGetItem m key = (⟨key, m.prefixFun key, []⟩, m) ∧
    (metaGetItem m key).2.nss = m.nss ∧
    metaLen (metaGetItem m key).2 = metaLen m ∧
    (metaGetItem (metaGetItem m key).2 key).1 = ⟨key, m.prefixFun key, []⟩ := by
  have h1 : metaGetItem m key = (⟨key, m.prefixFun key, []⟩, m) := by
    rw [metaGetItem, h]
  refine ⟨h1, by rw [h1], by rw [h1], by rw [h1]; rw [h1]⟩

def metaC10 : XMPMetadataT := ⟨[("u1", ⟨"u1", addr "q", []⟩)], fun _ => addr "p"⟩

/-- Claim C10 (witness): a concrete registry holding only "u1", looked up
at the unregistered uri "u2". -/
theorem claim_C10_witness :
    metaGetItem metaC10 "u2" = (⟨"u2", metaC10.prefixFun "u2", []⟩, metaC10) ∧
    (metaGetItem metaC10 "u2").2.nss = metaC10.nss ∧
    metaLen (metaGetItem metaC10 "u2").2 = metaLen metaC10 ∧
    (metaGetItem (metaGetItem metaC10 "u2").2 "u2").1 =
      ⟨"u2", metaC10.prefixFun "u2", []⟩ :=
  claim_C10_missing_uri_placeholder metaC10 "u2" rfl

/-! ### Scenario enumerations -/

def descrValue : Descriptor := ⟨false, false, false, false⟩
def descrStruct : Descriptor := ⟨false, true, false, false⟩
def descrOrdArr : Descriptor := ⟨false, false, true, true⟩

def eA1 : LibXMPElement := ⟨"ns1", addr "a", addr "5", descrStruct⟩
def eA2 : LibXMPElement := ⟨"ns1", addr "a/b", addr "x", descrValue⟩

/-- Scenario A with the struct flag on `a` (the flag a Structure at `a`
actually carries; the literal scenario tuple says VALUE, under which the
builder produces a Value leaf at `a` and drops `a/b` entirely). -/
def scenarioAElems : List LibXMPElement := [eA1, eA2]

def scenarioAStore : Store := storeOfElems scenarioAElems

def scenarioANode : XMPNode :=
  XMPNode.struct "ns1" (addr "a") [XMPNode.value "ns1" (addr "a/b")]

theorem stepA2 : fromLibXMP eA2 [eA2] = XMPNode.value "ns1" (addr "a/b") := by
  rw [fromLibXMP]
  have h1 : eA2.is_value = true := by decide
  simp only [h1, if_true]
  rfl

theorem stepA1 : fromLibXMP eA1 scenarioAElems = scenarioANode := by
  rw [fromLibXMP]
  have h1 : eA1.is_value = false := by decide
  have h2 : List.filter (fun d => isDescendantOfB d.toElem eA1.toElem) scenarioAElems
      = [eA2] := by
    simp +decide [scenarioAElems, List.filter_cons]
  have h3 : List.filter (fun d => isChildrenOfB d.toElem eA1.toElem) [eA2]
      = [eA2] := by
    simp +decide [List.filter_cons]
  simp only [h1, Bool.false_eq_true, if_false, h2, h3, mapMem]
  have h4 : eA1.is_struct = true := by decide
  simp only [h4, if_true, stepA2]
  rfl

theorem buildScenarioA :
    buildNamespace "ns1" (addr "p") scenarioAElems =
      ⟨"ns1", addr "p", [scenarioANode]⟩ := by
  rw [buildNamespace]
  have h1 : List.filter (fun m => isChildrenOfB m.toElem ⟨"ns1", []⟩) scenarioAElems
      = [eA1] := by
    simp +decide [scenarioAElems, List.filter_cons]
  simp only [h1, List.map_cons, List.map_nil, stepA1]

/-- Claim C4: the claim is contradicted by `XMPStructure.value` — the
genexp refers to the undefined bare name `children` (the source means
`self.children`), so reading any Structure's `value` raises `NameError`
instead of returning the field map; on the Scenario A tree the read does
not produce the ordered map from "b" to "x". -/
theorem claim_C4_structure_value_raises :
    buildNamespace "ns1" (addr "p") scenarioAElems =
      ⟨"ns1", addr "p", [scenarioANode]⟩ ∧
    nodeValue scenarioAStore scenarioANode = .error (.nameError "children") ∧
    nodeValue scenarioAStore scenarioANode ≠
      .ok (.mapV [(addr "b", .str (addr "x"))]) := by
  refine ⟨buildScenarioA, rfl, by intro h; cases h⟩

/-! ### Scenario B and claim C5 -/

def eB0 : LibXMPElement := ⟨"ns1", addr "arr[0]", addr "1", descrValue⟩
def eB1 : LibXMPElement := ⟨"ns1", addr "arr[1]", addr "2", descrValue⟩
def eBarr : LibXMPElement := ⟨"ns1", addr "arr", [], descrOrdArr⟩

def scenarioBElems : List LibXMPElement := [eB0, eB1, eBarr]

def scenarioBStore : Store := storeOfElems scenarioBElems

def scenarioBNode : XMPNode :=
  XMPNode.arr "ns1" (addr "arr")
    [XMPNode.value "ns1" (addr "arr[0]"), XMPNode.value "ns1" (addr "arr[1]")]

theorem stepB0 : fromLibXMP eB0 [eB0, eB1] = XMPNode.value "ns1" (addr "arr[0]") := by
  rw [fromLibXMP]
  have h1 : eB0.is_value = true := by decide
  simp only [h1, if_true]
  rfl

theorem stepB1 : fromLibXMP eB1 [eB0, eB1] = XMPNode.value "ns1" (addr "arr[1]") := by
  rw [fromLibXMP]
  have h1 : eB1.is_value = true := by decide
  simp only [h1, if_true]
  rfl

theorem stepBarr : fromLibXMP eBarr scenarioBElems = scenarioBNode := by
  rw [fromLibXMP]
  have h1 : eBarr.is_value = false := by decide
  have h2 : List.filter (fun d => isDescendantOfB d.toElem eBarr.toElem) scenarioBElems
      = [eB0, eB1] := by
    simp +decide [scenarioBElems, List.filter_cons]
  have h3 : List.filter (fun d => isChildrenOfB d.toElem eBarr.toElem) [eB0, eB1]
      = [eB0, eB1] := by
    simp +decide [List.filter_cons]
  simp only [h1, Bool.false_eq_true, if_false, h2, h3, mapMem, stepB0, stepB1]
  have h4 : eBarr.is_struct = false := by decide
  have h5 : eBarr.descriptor.arrayIsOrdered = true := by decide
  simp only [h4, Bool.false_eq_true, if_false, h5, if_true]
  rfl

theorem buildScenarioB :
    buildNamespace "ns1" (addr "p") scenarioBElems =
      ⟨"ns1", addr "p", [scenarioBNode]⟩ := by
  rw [buildNamespace]
  have h1 : List.filter (fun m => isChildrenOfB m.toElem ⟨"ns1", []⟩) scenarioBElems
      = [eBarr] := by
    simp +decide [scenarioBElems, List.filter_cons]
  simp only [h1, List.map_cons, List.map_nil, stepBarr]

/-- Claim C5: the claim's numeric decode does not happen: `XMPValue.value`
returns `get_property`'s text unchanged, so the Scenario B ordered array
reads back as the texts, not as the numbers 1 and 2. -/
theorem claim_C5_counterexample :
    (buildNamespace "ns1" (addr "p") scenarioBElems).children = [scenarioBNode] ∧
    nodeValue scenarioBStore scenarioBNode ≠
      .ok (.list [.intV 1, .intV 2]) := by
  refine ⟨by rw [buildScenarioB], ?_⟩
  intro h
  rw [show nodeValue scenarioBStore scenarioBNode =
    .ok (.list [.str (addr "1"), .str (addr "2")]) from rfl] at h
  cases h

/-- Claim C5 (amended): reading a Value returns the stored text as is — no
type inference happens in the core — so the Scenario B ordered array built
from the enumeration reads back as the list of texts "1", "2" in
enumeration (here index) order. -/
theorem claim_C5_array_value_reads_text :
    buildNamespace "ns1" (addr "p") scenarioBElems =
      ⟨"ns1", addr "p", [scenarioBNode]⟩ ∧
    nodeValue scenarioBStore scenarioBNode =
      .ok (.list [.str (addr "1"), .str (addr "2")]) := by
  exact ⟨buildScenarioB, rfl⟩

/-! ### Claims C1 and C2: virtual element assignment -/

def nsEmpty : XMPNamespaceT := ⟨"ns1", addr "p", []⟩

theorem getItemKey_nsEmpty :
    getItemKey (addr "p") [] (addr "p:a") = .error (.keyError (addr "p:a")) := by
  rw [getItemKey]
  split
  case h_1 heq => exact absurd heq (by decide)
  case h_2 c0 rest heq =>
    have h3 : splitSlash (addr "p:a") = [addr "p:a"] := by decide
    rw [h3] at heq
    obtain ⟨hc0, hrest⟩ := List.cons.inj heq
    subst hc0
    subst hrest
    rfl

theorem resolveParent_deep :
    resolveParent nsEmpty (addr "p:a/p:b") = .virt (addr "p:a") := by
  rw [resolveParent]
  simp only [show parentAddressA (addr "p:a/p:b") = some (addr "p:a") from by decide]
  simp only [show nsEmpty.prefixStr = addr "p" from rfl,
    show nsEmpty.children = [] from rfl]
  simp only [getItemKey_nsEmpty]

theorem resolveParent_top :
    resolveParent nsEmpty (addr "p:a") = .real (nsRootNode nsEmpty) := by
  rw [resolveParent]
  simp only [show parentAddressA (addr "p:a") = none from by decide]

/-- The inner materialization step of the C1 scenario: assigning the wrapped
dictionary to the virtual parent "p:a" reaches the namespace root, builds an
empty `XMPStructure` (discarding the dictionary's contents), and then
`append` raises `NotImplementedError` from `XMPStructure.insert`. -/
theorem virtualSet_parent_step :
    virtualSet nsEmpty [] (addr "p:a") (.mapV [(addr "p:b", .intV 5)]) =
      (.error (.notImplementedError ""), ([] : Store)) := by
  rw [virtualSet]
  split
  case h_1 e heq => rw [resolveParent_top] at heq; cases heq
  case h_2 pa heq => rw [resolveParent_top] at heq; cases heq
  case h_3 p heq =>
    rw [resolveParent_top] at heq
    cases heq
    rfl

/-- Claim C1: the claim is contradicted by the code.  Assigning 5 to the
virtual address "p:a/p:b" in a namespace with no existing elements resolves
the virtual parent "p:a", recurses upward with the dictionary-wrapped value
(both the array-index and the field sub-branches of the source wrap in a
dictionary, so an array ancestor could never arise), creates an *empty*
structure for "p:a" — discarding the assigned value — and then raises
`NotImplementedError` from `XMPStructure.insert` before anything reaches
the chain below; the virtual branch itself would raise
`NotImplementedError("Virtual element assignment [Not implemented YET]")`
even if the append succeeded.  No value is ever stored at the original
address. -/
theorem claim_C1_materialization_raises :
    virtualSet nsEmpty [] (addr "p:a/p:b") (.intV 5) =
      (.error (.notImplementedError ""), ([] : Store)) ∧
    storeExists [] "ns1" (addr "p:a/p:b") = false ∧
    storeExists [] "ns1" (addr "p:a") = false := by
  refine ⟨?_, by decide, by decide⟩
  rw [virtualSet]
  split
  case h_1 e heq => rw [resolveParent_deep] at heq; cases heq
  case h_3 p heq => rw [resolveParent_deep] at heq; cases heq
  case h_2 pa heq =>
    rw [resolveParent_deep] at heq
    cases heq
    simp only [show lastSegment (addr "p:a/p:b") = addr "p:b" from by decide]
    simp only [virtualSet_parent_step]

def nsC2 : XMPNamespaceT := ⟨"ns1", addr "p", [XMPNode.value "ns1" (addr "p:x")]⟩
def storeC2 : Store := [⟨"ns1", addr "p:x", addr "1"⟩]

theorem getItemKey_nsC2 :
    getItemKey (addr "p") [XMPNode.value "ns1" (addr "p:x")] (addr "newfield") =
      .error (.keyError (addr "p:newfield")) := by
  rw [getItemKey]
  split
  case h_1 heq => exact absurd heq (by decide)
  case h_2 c0 rest heq =>
    have h3 : splitSlash (addr "newfield") = [addr "newfield"] := by decide
    rw [h3] at heq
    obtain ⟨hc0, hrest⟩ := List.cons.inj heq
    subst hc0
    subst hrest
    rfl

theorem resolveParent_newfield :
    resolveParent nsC2 (addr "p:newfield") = .real (nsRootNode nsC2) := by
  rw [resolveParent]
  simp only [show parentAddressA (addr "p:newfield") = none from by decide]

theorem virtualSet_newfield :
    virtualSet nsC2 storeC2 (addr "p:newfield") (.str (addr "hello")) =
      (.error (.notImplementedError ""), storeC2) := by
  rw [virtualSet]
  split
  case h_1 e heq => rw [resolveParent_newfield] at heq; cases heq
  case h_2 pa heq => rw [resolveParent_newfield] at heq; cases heq
  case h_3 p heq =>
    rw [resolveParent_newfield] at heq
    cases heq
    rfl

/-- Claim C2: the claim is contradicted by the code.  In Scenario C the
absent field yields a virtual element at "p:newfield" whose parent (the
namespace root) exists; but because Python 2 registers `basestring` with
`collections.Sequence`, the assigned string "hello" takes the Sequence
branch of `XMPVirtualElement.__set__`: an *empty* `XMPArray` is created
instead of an `XMPValue`, nothing is ever written through the store (so
`exists` stays false at the new address), and appending the node to the
parent raises `NotImplementedError` from `XMPStructure.insert`, so the new
node never reaches the parent's child collection. -/
theorem claim_C2_scenarioC_raises :
    nsAssignField nsC2 storeC2 (addr "newfield") (.str (addr "hello")) =
      (.error (.notImplementedError ""), storeC2) ∧
    storeExists storeC2 "ns1" (addr "p:newfield") = false := by
  refine ⟨?_, by decide⟩
  rw [nsAssignField]
  simp only [show nsC2.prefixStr = addr "p" from rfl,
    show nsC2.children = [XMPNode.value "ns1" (addr "p:x")] from rfl]
  simp only [getItemKey_nsC2]
  simp only [show qualifyName (addr "p") (addr "newfield") = addr "p:newfield" from by decide]
  simp only [virtualSet_newfield]
